import Mathlib

/-!
Shallow embedding of the client-side WebP converter
(`src/app/components/quality-selector.tsx`): the `ConvertedFile` registry,
the `handleFilesSelected` batch pipeline, the per-job update calls, the
removal / clear-all / effect-cleanup release paths, the size formatter
`formatFileSize`, the quality display, and the encoder quality factor.

JavaScript numbers are modelled as exact arithmetic: `Math.log`-based unit
selection becomes `Nat.log`, and the encoder factor uses `ℚ`.  Strings are
Lean `String`s; `Array.prototype.map/filter/find` become the corresponding
`List` operations.
-/

namespace Webp

/-- `ConvertedFile.status`: `"converting" | "converted" | "error"`. -/
inductive Status where
  | converting
  | converted
  | failed
deriving DecidableEq, Repr

/-- The data the pipeline reads from a DOM `File`: `name`, `type`
(declared media type) and `size` in bytes. -/
structure SourceFile where
  name : String
  type : String
  size : Nat
deriving DecidableEq, Repr

/-- The `ConvertedFile` record of the registry (`interface ConvertedFile`).
Optional fields are `none` until the corresponding transition sets them. -/
structure ConvertedFile where
  id : String
  originalFile : SourceFile
  originalType : String
  status : Status
  convertedUrl : Option String
  convertedSize : Option Nat
  failureMessage : Option String
deriving DecidableEq, Repr

/-- `file.type.startsWith("image/")` — the acceptance test used both by the
batch filter and by `convertToWebP`'s early rejection, stated over the
character list ("image/" is a prefix of the declared type). -/
def isImageType (t : String) : Bool :=
  "image/".toList.isPrefixOf t.toList

/-- One base-36 digit as rendered by JavaScript `Number.prototype.toString(36)`:
`0`-`9` then `a`-`z`. -/
def base36Char (d : Nat) : Char :=
  if d < 10 then Char.ofNat (48 + d) else Char.ofNat (87 + d)

/-- `Math.random().toString(36).substr(2, 9)`: `toString(36)` renders `"0."`
followed by the fraction's base-36 digits, and `substr(2, 9)` keeps (at most)
the first nine fraction digits.  The draw of `Math.random()` is modelled by
its list of fraction digits. -/
def randomIdString (digits : List Nat) : String :=
  ((digits.take 9).map base36Char).asString

/-- The job record built for one accepted file in `handleFilesSelected`'s
`imageFiles.map(...)`: fresh random id, source file kept, initial status
`"converting"`, nothing else set. -/
def mkJob (digits : List Nat) (file : SourceFile) : ConvertedFile :=
  { id := randomIdString digits
    originalFile := file
    originalType := file.type
    status := Status.converting
    convertedUrl := none
    convertedSize := none
    failureMessage := none }

/-- `imageFiles.map(file => ({id: Math.random()...}))`: one job per accepted
file, in order, consuming one `Math.random()` draw per file.  `rand k` is the
digit list of the `k`-th draw of the batch. -/
def makeJobs (rand : Nat → List Nat) (k : Nat) : List SourceFile → List ConvertedFile
  | [] => []
  | f :: fs => mkJob (rand k) f :: makeJobs rand (k + 1) fs

/-- The registry effect of `handleFilesSelected`: filter the selection down to
image-typed files, return unchanged (early `return`) if none are left,
otherwise append one `"converting"` job per accepted file
(`setFiles(prev => [...prev, ...newFiles])`). -/
def handleFilesSelected (rand : Nat → List Nat) (selected : List SourceFile)
    (prev : List ConvertedFile) : List ConvertedFile :=
  let imageFiles := selected.filter (fun f => isImageType f.type)
  if imageFiles.length = 0 then prev
  else prev ++ makeJobs rand 0 imageFiles

/-- The success updater passed to `setFiles` after `convertToWebP` resolves:
`prev.map(f => f.id === id ? {...f, status: "converted", convertedUrl,
convertedSize} : f)`. -/
def updateJobSuccess (id url : String) (size : Nat)
    (prev : List ConvertedFile) : List ConvertedFile :=
  prev.map (fun f =>
    if f.id = id then
      { f with status := Status.converted
               convertedUrl := some url
               convertedSize := some size }
    else f)

/-- The failure updater passed to `setFiles` in the `catch` branch:
`prev.map(f => f.id === id ? {...f, status: "error", error: message} : f)`. -/
def updateJobFailure (id msg : String)
    (prev : List ConvertedFile) : List ConvertedFile :=
  prev.map (fun f =>
    if f.id = id then
      { f with status := Status.failed, failureMessage := some msg }
    else f)

/-- The object URLs held by a registry snapshot — exactly the urls visited by
`files.forEach(f => { if (f.convertedUrl) URL.revokeObjectURL(f.convertedUrl) })`,
the loop shared by the "Clean All" handler and the effect cleanup. -/
def urlsOf (files : List ConvertedFile) : List String :=
  files.filterMap ConvertedFile.convertedUrl

/-- The urls revoked by `removeFile(id)`:
`files.find(f => f.id === id)` then revoke its `convertedUrl` if present. -/
def removeReleases (files : List ConvertedFile) (id : String) : List String :=
  match files.find? (fun f => f.id = id) with
  | some f => f.convertedUrl.toList
  | none => []

/-- The registry after `removeFile(id)`:
`setFiles(prev => prev.filter(f => f.id !== id))`. -/
def removeFile (files : List ConvertedFile) (id : String) : List ConvertedFile :=
  files.filter (fun f => ¬ f.id = id)

/-- The cleanup semantics of `useEffect(() => () => { files.forEach(revoke) },
[files])` over one component lifetime: `history` is the sequence of values the
`files` state takes (initial value first), ending with unmount.  React runs the
previous effect's cleanup every time the dependency `files` changes, and the
last cleanup at unmount — so every snapshot's url list is revoked exactly
once. -/
def effectReleases (history : List (List ConvertedFile)) : List String :=
  history.flatMap urlsOf

/-- The unit table `const sizes = ["B", "KB", "MB", "GB"]`. -/
def sizes : List String := ["B", "KB", "MB", "GB"]

/-- `parseFloat((bytes / Math.pow(1024, i)).toFixed(2))` rendered back to a
string: round `bytes / pow` half-up to two decimals (JavaScript `toFixed`
picks the larger candidate on ties for positive numbers), then drop trailing
fraction zeros the way `parseFloat` + string conversion does.  `n` below is
the rounded value scaled by 100. -/
def formatScaled (bytes pow : Nat) : String :=
  let n := (200 * bytes + pow) / (2 * pow)
  let intPart := n / 100
  let frac := n % 100
  if frac = 0 then toString intPart
  else if frac % 10 = 0 then toString intPart ++ "." ++ toString (frac / 10)
  else if frac < 10 then toString intPart ++ ".0" ++ toString frac
  else toString intPart ++ "." ++ toString frac

/-- `formatFileSize`: `"0 B"` for zero, otherwise
`i = Math.floor(Math.log(bytes) / Math.log(1024))` (exactly `Nat.log 1024`
for positive integers under real arithmetic), then the scaled value and
`sizes[i]` — which is JavaScript `undefined`, rendered `"undefined"` by the
string concatenation, when `i` falls outside the table. -/
def formatFileSize (bytes : Nat) : String :=
  if bytes = 0 then "0 B"
  else
    let i := Nat.log 1024 bytes
    formatScaled bytes (1024 ^ i) ++ " " ++ (sizes.getD i "undefined")

/-- The label text `WebP quality: {Math.min(quality, 99.9)}%` — the displayed
quality value. -/
def displayQuality (quality : ℚ) : ℚ :=
  min quality (999 / 10)

/-- The tier span `quality < 50 ? 'Low' : quality < 80 ? 'Average' : 'High'`. -/
def qualityTier (quality : ℚ) : String :=
  if quality < 50 then "Low" else if quality < 80 then "Average" else "High"

/-- The third argument of `canvas.toBlob(..., "image/webp", Math.max(quality /
100 - 0.001, 0))` — the effective encoder quality factor. -/
def effectiveQuality (quality : ℚ) : ℚ :=
  max (quality / 100 - 1 / 1000) 0

/-- The host-platform collaborators of `convertToWebP`: whether the `Image`
fires `onload` (vs `onerror`), whether `canvas.getContext("2d")` is non-null,
and the encoder `canvas.toBlob(..., "image/webp", q)` — `some (objectURL,
size)` of the produced blob, or `none` when no blob is produced. -/
structure BrowserEnv where
  imageLoads : Bool
  hasContext : Bool
  encode : ℚ → Option (String × Nat)

/-- `convertToWebP(file, quality)` as a result value: early rejection of
non-image types, then the `onerror` / missing-context / `toBlob` failure
branches in the order the callbacks decide them, with the code's literal
rejection messages; on success the object URL and blob size. -/
def convertToWebP (env : BrowserEnv) (file : SourceFile) (quality : ℚ) :
    Except String (String × Nat) :=
  if ¬ isImageType file.type then Except.error "Unsupported file format"
  else if ¬ env.imageLoads then Except.error "Failed to load image"
  else if ¬ env.hasContext then Except.error "Failed to get drawing context"
  else
    match env.encode (effectiveQuality quality) with
    | some r => Except.ok r
    | none => Except.error "Failed to convert image to WebP"

/-- The download attribute `` `${file.originalFile.name.split(".")[0]}.webp` ``:
`split(".")[0]` is the segment of the name before its first dot (the whole
name when it has none). -/
def downloadName (name : String) : String :=
  (name.toList.takeWhile (fun c => c ≠ '.')).asString ++ ".webp"

/-- Modelled from the spec: "original filename with its extension stripped" —
everything before the final dot when the name has one, the whole name
otherwise.  Used only to compare the spec's naming rule with the code's. -/
def stripFinalExtension (name : String) : String :=
  if '.' ∈ name.toList then
    (((name.toList.reverse.dropWhile (fun c => c ≠ '.')).drop 1).reverse).asString
  else name

/-- Modelled from the spec: `<originalBaseName>.webp` with the base name taken
before the final extension. -/
def specDownloadName (name : String) : String :=
  stripFinalExtension name ++ ".webp"

/-- Observable scheduling events of one `handleFilesSelected` batch: job `k`'s
record being built, its `convertToWebP` call starting, and its completion
being applied to the registry by `setFiles`. -/
inductive JobEvent where
  | created (k : Nat)
  | convertStart (k : Nat)
  | completionApplied (k : Nat)
deriving DecidableEq, Repr

/-- The `for (const newFile of newFiles) { ... await convertToWebP ...;
setFiles(...) }` loop: each iteration starts a conversion, awaits it, and
applies its result before the next iteration begins. -/
def convertLoop : List Nat → List JobEvent
  | [] => []
  | k :: ks => JobEvent.convertStart k :: JobEvent.completionApplied k :: convertLoop ks

/-- The event order of one batch of `n` accepted files in
`handleFilesSelected`: all job records are built synchronously (the single
`setFiles(prev => [...prev, ...newFiles])`), then the sequential await
loop runs. -/
def batchTrace (n : Nat) : List JobEvent :=
  ((List.range n).map JobEvent.created) ++ convertLoop (List.range n)

/-- Position of an event in the batch trace (each event occurs at most once). -/
def eventPos (n : Nat) (e : JobEvent) : Nat :=
  (batchTrace n).indexOf e

/-- The spec's concurrency policy, stated of the code's trace: no job's
conversion start waits on another job's completion — every start precedes
every other job's completion-application. -/
def claimedUnconstrainedStart (n : Nat) : Prop :=
  ∀ i ∈ List.range n, ∀ j ∈ List.range n, i ≠ j →
    eventPos n (JobEvent.convertStart j) < eventPos n (JobEvent.completionApplied i)

instance (n : Nat) : Decidable (claimedUnconstrainedStart n) := by
  unfold claimedUnconstrainedStart
  infer_instance

/-! ### Concrete fixtures used to instantiate the theorems -/

/-- A PNG-typed input file. -/
def fileA : SourceFile := { name := "a.png", type := "image/png", size := 100 }

/-- A second PNG-typed input file. -/
def fileB : SourceFile := { name := "b.png", type := "image/png", size := 200 }

/-- A non-image input file. -/
def fileTxt : SourceFile := { name := "c.txt", type := "text/plain", size := 10 }

/-- A random source whose `k`-th draw has distinct leading digits for `k < 36`. -/
def rndSeq : Nat → List Nat := fun k => [k % 36]

/-- Registry after one single-file batch: job `"0"` in `Converting` state. -/
def reg1 : List ConvertedFile := handleFilesSelected (fun _ => [0]) [fileA] []

/-- Registry after job `"0"`'s conversion resolves with object URL `"blob:a"`. -/
def reg2 : List ConvertedFile := updateJobSuccess "0" "blob:a" 42 reg1

/-- Registry after a second single-file batch appends job `"1"`. -/
def reg3 : List ConvertedFile := handleFilesSelected (fun _ => [1]) [fileB] reg2

/-- A browser environment whose encoder produces no blob. -/
def env0 : BrowserEnv := { imageLoads := true, hasContext := true, encode := fun _ => none }

/-! ### Helper lemmas -/

theorem map_if_id_of_not_mem {g : ConvertedFile → ConvertedFile} (id : String)
    (prev : List ConvertedFile) (h : id ∉ prev.map ConvertedFile.id) :
    prev.map (fun f => if f.id = id then g f else f) = prev := by
  induction prev with
  | nil => rfl
  | cons f rest ih =>
    simp only [List.map_cons, List.mem_cons] at h
    push_neg at h
    simp only [List.map_cons, if_neg (fun he : f.id = id => h.1 he.symm), ih h.2]

/-! ### C5 — update addressed to an absent id is a no-op -/

/-- C5: applying a terminal outcome (success or failure) to an id that is no
longer present in the registry leaves the registry unchanged — the job is not
resurrected and no error is raised (both updaters are total functions). -/
theorem updateJob_absent_id_noop (id url msg : String) (size : Nat)
    (prev : List ConvertedFile) (h : id ∉ prev.map ConvertedFile.id) :
    updateJobSuccess id url size prev = prev ∧ updateJobFailure id msg prev = prev :=
  ⟨map_if_id_of_not_mem id prev h, map_if_id_of_not_mem id prev h⟩

/-- C5 witness: the id `"zz"` is absent from the one-job registry `reg1`, and
both updaters leave `reg1` unchanged. -/
theorem updateJob_absent_id_noop_witness :
    updateJobSuccess "zz" "u" 7 reg1 = reg1 ∧ updateJobFailure "zz" "m" reg1 = reg1 :=
  updateJob_absent_id_noop "zz" "u" "m" 7 reg1 (by decide)

/-! ### C7 — quality tier label and capped display value -/

/-- C7: for quality in `[0, 100]`, the tier label is `"Low"` below 50,
`"Average"` in `[50, 80)` and `"High"` from 80 up; the displayed value is
capped at 99.9, is the identity below the cap, and input 100 shows 99.9. -/
theorem qualityTier_spec (q : ℚ) (h0 : 0 ≤ q) (h100 : q ≤ 100) :
    (q < 50 → qualityTier q = "Low") ∧
    (50 ≤ q → q < 80 → qualityTier q = "Average") ∧
    (80 ≤ q → qualityTier q = "High") ∧
    displayQuality q ≤ 999 / 10 ∧
    (q ≤ 999 / 10 → displayQuality q = q) ∧
    displayQuality 100 = 999 / 10 := by
  refine ⟨fun h => by simp [qualityTier, h], fun h50 h80 => ?_, fun h80 => ?_, ?_, ?_, ?_⟩
  · rw [qualityTier, if_neg (by linarith), if_pos h80]
  · rw [qualityTier, if_neg (by linarith), if_neg (by linarith)]
  · exact min_le_right _ _
  · exact fun h => min_eq_left h
  · rw [displayQuality]
    exact min_eq_right (by norm_num)

/-- C7 witness at quality 100: the label is `"High"` and the display value is
99.9. -/
theorem qualityTier_spec_witness :
    qualityTier 100 = "High" ∧ displayQuality 100 = 999 / 10 :=
  ⟨(qualityTier_spec 100 (by norm_num) (by norm_num)).2.2.1 (by norm_num),
   (qualityTier_spec 100 (by norm_num) (by norm_num)).2.2.2.2.2⟩

/-! ### C8 — effective encoder quality factor -/

/-- C8: for quality in `[0, 100]` the encoder factor is
`max(quality/100 − 0.001, 0)`, which is strictly below 1, so even at 100 the
encoder is never asked for its exact maximum-quality factor; moreover on the
success path `convertToWebP` queries the encoder exactly at that factor. -/
theorem effectiveQuality_lt_one (q : ℚ) (env : BrowserEnv) (f : SourceFile)
    (h0 : 0 ≤ q) (h100 : q ≤ 100) :
    effectiveQuality q < 1 ∧
    (isImageType f.type = true → env.imageLoads = true → env.hasContext = true →
      convertToWebP env f q =
        match env.encode (effectiveQuality q) with
        | some r => Except.ok r
        | none => Except.error "Failed to convert image to WebP") := by
  constructor
  · rw [effectiveQuality]
    apply max_lt _ (by norm_num)
    have : q / 100 ≤ 1 := by linarith
    linarith
  · intro himg hload hctx
    simp [convertToWebP, himg, hload, hctx]

/-- C8 witness at quality 100 with a loading, context-bearing environment whose
encoder yields no blob: the factor is below 1 and the call reduces to the
encoder's answer at that factor. -/
theorem effectiveQuality_lt_one_witness :
    effectiveQuality 100 < 1 ∧
    convertToWebP env0 fileA 100 =
      match env0.encode (effectiveQuality 100) with
      | some r => Except.ok r
      | none => Except.error "Failed to convert image to WebP" :=
  ⟨(effectiveQuality_lt_one 100 env0 fileA (by norm_num) (by norm_num)).1,
   (effectiveQuality_lt_one 100 env0 fileA (by norm_num) (by norm_num)).2
     (by decide) rfl rfl⟩

/-! ### C4 — exactly the image-typed files produce jobs -/

theorem makeJobs_originalFiles (rand : Nat → List Nat) :
    ∀ (files : List SourceFile) (k : Nat),
      (makeJobs rand k files).map ConvertedFile.originalFile = files := by
  intro files
  induction files with
  | nil => intro k; rfl
  | cons f fs ih => intro k; simp [makeJobs, mkJob, ih]

theorem makeJobs_status (rand : Nat → List Nat) :
    ∀ (files : List SourceFile) (k : Nat) (job : ConvertedFile),
      job ∈ makeJobs rand k files → job.status = Status.converting := by
  intro files
  induction files with
  | nil => intro k job h; cases h
  | cons f fs ih =>
    intro k job h
    rcases (List.mem_cons).mp h with h | h
    · rw [h]; rfl
    · exact ih (k + 1) job h

/-- C4: a submitted selection produces jobs for exactly its image-typed files:
the registry becomes the old registry with one job per accepted file appended
at the end in selection order (`makeJobs` keeps the accepted files in order,
as its `originalFile` projection shows), every new job starts in `Converting`
state, and a selection whose filter leaves zero files changes nothing. -/
theorem handleFilesSelected_spec (rand : Nat → List Nat) (selected : List SourceFile)
    (prev : List ConvertedFile) (k : Nat) (files : List SourceFile)
    (job : ConvertedFile) (hjob : job ∈ makeJobs rand k files) :
    handleFilesSelected rand selected prev =
      prev ++ makeJobs rand 0 (selected.filter (fun f => isImageType f.type)) ∧
    (makeJobs rand k files).map ConvertedFile.originalFile = files ∧
    job.status = Status.converting ∧
    (selected.filter (fun f => isImageType f.type) = [] →
      handleFilesSelected rand selected prev = prev) := by
  refine ⟨?_, makeJobs_originalFiles rand files k, makeJobs_status rand files k job hjob, ?_⟩
  · rw [handleFilesSelected]
    by_cases h : (selected.filter (fun f => isImageType f.type)).length = 0
    · rw [if_pos h, List.eq_nil_of_length_eq_zero h]
      simp [makeJobs]
    · rw [if_neg h]
  · intro h
    rw [handleFilesSelected]
    simp [h]

/-- C4 witness: a selection of two PNGs around a text file yields exactly the
two PNG jobs appended in order, the first job is in `Converting` state, and an
all-text selection leaves the registry untouched. -/
theorem handleFilesSelected_spec_witness :
    handleFilesSelected rndSeq [fileA, fileTxt, fileB] [] =
      [] ++ makeJobs rndSeq 0 [fileA, fileB] ∧
    (makeJobs rndSeq 0 [fileA, fileB]).map ConvertedFile.originalFile = [fileA, fileB] ∧
    (mkJob (rndSeq 0) fileA).status = Status.converting ∧
    handleFilesSelected rndSeq [fileTxt] [] = [] := by
  have h := handleFilesSelected_spec rndSeq [fileA, fileTxt, fileB] [] 0 [fileA, fileB]
    (mkJob (rndSeq 0) fileA) (by decide)
  have hfil : [fileA, fileTxt, fileB].filter (fun f => isImageType f.type) = [fileA, fileB] :=
    by decide
  refine ⟨by rw [← hfil]; exact h.1, h.2.1, h.2.2.1, ?_⟩
  exact (handleFilesSelected_spec rndSeq [fileTxt] [] 0 [fileA]
    (mkJob (rndSeq 0) fileA) (by decide)).2.2.2 (by decide)

/-! ### C9 — downloadable artifact name -/

theorem takeWhile_append_stop {p : Char → Bool} :
    ∀ (l₁ : List Char) (c : Char) (l₂ : List Char),
      (∀ x ∈ l₁, p x = true) → p c = false →
      List.takeWhile p (l₁ ++ c :: l₂) = l₁ := by
  intro l₁ c l₂
  induction l₁ with
  | nil => intro h hc; simp [List.takeWhile_cons, hc]
  | cons a as ih =>
    intro h hc
    have ha : p a = true := h a (List.mem_cons_self a as)
    simp [List.cons_append, List.takeWhile_cons, ha,
      ih (fun x hx => h x (List.mem_cons_of_mem a hx)) hc]

theorem dropWhile_append_stop {p : Char → Bool} :
    ∀ (l₁ : List Char) (c : Char) (l₂ : List Char),
      (∀ x ∈ l₁, p x = true) → p c = false →
      List.dropWhile p (l₁ ++ c :: l₂) = c :: l₂ := by
  intro l₁ c l₂
  induction l₁ with
  | nil => intro h hc; simp [List.dropWhile_cons, hc]
  | cons a as ih =>
    intro h hc
    have ha : p a = true := h a (List.mem_cons_self a as)
    simp [List.cons_append, List.dropWhile_cons, ha,
      ih (fun x hx => h x (List.mem_cons_of_mem a hx)) hc]

/-- C9 counterexample: for the multi-dot name `"a.b.jpg"` the code truncates at
the first dot and produces `"a.webp"`, not the spec's
`<base name before final extension>.webp` = `"a.b.webp"`. -/
theorem downloadName_not_final_extension :
    downloadName "a.b.jpg" = "a.webp" ∧
    specDownloadName "a.b.jpg" = "a.b.webp" ∧
    downloadName "a.b.jpg" ≠ specDownloadName "a.b.jpg" := by
  refine ⟨by decide, by decide, by decide⟩

/-- C9 amended: the artifact name is the original filename truncated at its
FIRST dot, with `".webp"` appended (the whole name when it has no dot); this
coincides with stripping the final extension exactly when the name contains at
most one dot. -/
theorem downloadName_first_dot (l₁ l₂ : List Char) (h : '.' ∉ l₁) :
    downloadName (l₁ ++ '.' :: l₂).asString = l₁.asString ++ ".webp" ∧
    downloadName l₁.asString = l₁.asString ++ ".webp" ∧
    specDownloadName l₁.asString = l₁.asString ++ ".webp" ∧
    ('.' ∉ l₂ → specDownloadName (l₁ ++ '.' :: l₂).asString = l₁.asString ++ ".webp") := by
  have hall : ∀ x ∈ l₁, (decide (x ≠ '.')) = true := fun x hx => by
    simp only [decide_eq_true_eq]
    exact fun he => h (he ▸ hx)
  have hdot : (decide (('.' : Char) ≠ '.')) = false := by decide
  refine ⟨?_, ?_, ?_, ?_⟩
  · rw [downloadName]
    congr 1
    congr 1
    have : (l₁ ++ '.' :: l₂).asString.toList = l₁ ++ '.' :: l₂ := rfl
    rw [this]
    exact takeWhile_append_stop l₁ '.' l₂ hall hdot
  · rw [downloadName]
    congr 1
    congr 1
    have : l₁.asString.toList = l₁ := rfl
    rw [this, List.takeWhile_eq_self_iff.mpr hall]
  · rw [specDownloadName, stripFinalExtension]
    have : l₁.asString.toList = l₁ := rfl
    rw [this, if_neg h]
  · intro h₂
    have hall₂ : ∀ x ∈ l₂.reverse, (decide (x ≠ '.')) = true := fun x hx => by
      simp only [decide_eq_true_eq]
      exact fun he => h₂ (he ▸ (List.mem_reverse.mp hx))
    rw [specDownloadName, stripFinalExtension]
    have ht : (l₁ ++ '.' :: l₂).asString.toList = l₁ ++ '.' :: l₂ := rfl
    rw [ht, if_pos (by simp)]
    have hrev : (l₁ ++ '.' :: l₂).reverse = l₂.reverse ++ '.' :: l₁.reverse := by
      simp
    rw [hrev, dropWhile_append_stop l₂.reverse '.' l₁.reverse hall₂ hdot]
    simp

/-- C9 amended witness: `"ph.jpg"` maps to `"ph.webp"` under both the code's
rule and the spec's rule, and dotless `"ph"` maps to `"ph.webp"`. -/
theorem downloadName_first_dot_witness :
    downloadName (['p', 'h'] ++ '.' :: ['j', 'p', 'g']).asString =
      (['p', 'h'] : List Char).asString ++ ".webp" ∧
    specDownloadName (['p', 'h'] ++ '.' :: ['j', 'p', 'g']).asString =
      (['p', 'h'] : List Char).asString ++ ".webp" := by
  have h := downloadName_first_dot ['p', 'h'] ['j', 'p', 'g'] (by decide)
  exact ⟨h.1, h.2.2.2 (by decide)⟩

/-! ### C6 / C10 — display-size formatting -/

theorem log1024_le_three {b : Nat} (hb : 0 < b) (hlt : b < 1024 ^ 4) :
    Nat.log 1024 b ≤ 3 :=
  Nat.lt_succ_iff.mp ((Nat.lt_pow_iff_log_lt (by norm_num) (Nat.pos_iff_ne_zero.mp hb)).mp hlt)

theorem getD_mem_sizes {i : Nat} (h : i ≤ 3) : sizes.getD i "undefined" ∈ sizes := by
  interval_cases i <;> decide

/-- C6 counterexample: at one tebibyte the unit index is 4, past the end of
the four-entry table, so the rendered string carries no `B`/`KB`/`MB`/`GB`
unit at all — it is `"1 undefined"`, JavaScript's `sizes[4]` being
`undefined`. -/
theorem formatFileSize_tebibyte_undefined :
    sizes.get? (Nat.log 1024 (1024 ^ 4)) = none ∧
    formatFileSize (1024 ^ 4) = "1 undefined" := by
  have h : Nat.log 1024 (1024 ^ 4) = 4 :=
    Nat.log_eq_of_pow_le_of_lt_pow (by norm_num) (by norm_num)
  constructor
  · rw [h]; rfl
  · rw [formatFileSize, if_neg (by norm_num), h]
    rfl

/-- C6 amended: for every positive byte count below `1024 ^ 4` the formatter
renders the half-up two-decimal scaled value followed by the binary unit
`B`/`KB`/`MB`/`GB` selected by `Nat.log 1024`; zero renders as `"0 B"`, and
the four spec values map as stated.  (At or above `1024 ^ 4` the unit table is
exceeded; see the counterexample.) -/
theorem formatFileSize_spec :
    (∀ b : Nat, 0 < b → b < 1024 ^ 4 →
      Nat.log 1024 b ≤ 3 ∧
      sizes.getD (Nat.log 1024 b) "undefined" ∈ sizes ∧
      formatFileSize b =
        formatScaled b (1024 ^ Nat.log 1024 b) ++ " " ++
          sizes.getD (Nat.log 1024 b) "undefined") ∧
    formatFileSize 0 = "0 B" ∧
    formatFileSize 1024 = "1 KB" ∧
    formatFileSize 1536 = "1.5 KB" ∧
    formatFileSize 1048576 = "1 MB" := by
  refine ⟨fun b hb hlt => ?_, rfl, ?_, ?_, ?_⟩
  · have h3 := log1024_le_three hb hlt
    exact ⟨h3, getD_mem_sizes h3,
      by rw [formatFileSize, if_neg (Nat.pos_iff_ne_zero.mp hb)]⟩
  · have h : Nat.log 1024 1024 = 1 :=
      Nat.log_eq_of_pow_le_of_lt_pow (by norm_num) (by norm_num)
    rw [formatFileSize, if_neg (by norm_num), h]
    rfl
  · have h : Nat.log 1024 1536 = 1 :=
      Nat.log_eq_of_pow_le_of_lt_pow (by norm_num) (by norm_num)
    rw [formatFileSize, if_neg (by norm_num), h]
    rfl
  · have h : Nat.log 1024 1048576 = 2 :=
      Nat.log_eq_of_pow_le_of_lt_pow (by norm_num) (by norm_num)
    rw [formatFileSize, if_neg (by norm_num), h]
    rfl

/-- C6 amended witness at 5000 bytes: the unit index is in range, the chosen
unit is in the table, and the output is the scaled value with that unit. -/
theorem formatFileSize_spec_witness :
    Nat.log 1024 5000 ≤ 3 ∧
    sizes.getD (Nat.log 1024 5000) "undefined" ∈ sizes ∧
    formatFileSize 5000 =
      formatScaled 5000 (1024 ^ Nat.log 1024 5000) ++ " " ++
        sizes.getD (Nat.log 1024 5000) "undefined" :=
  formatFileSize_spec.1 5000 (by norm_num) (by norm_num)

/-- C10: the unit lookup of `formatFileSize` is in bounds exactly for positive
byte counts below `1024 ^ 4`: below it the index is at most 3 and `sizes[i]`
is defined, while at or above it the index reaches past the four-entry table,
the lookup is `none`, and the rendered unit degenerates to `"undefined"`. -/
theorem formatFileSize_unit_bounds (b : Nat) (hb : 0 < b) :
    (b < 1024 ^ 4 ↔ Nat.log 1024 b ≤ 3) ∧
    (b < 1024 ^ 4 → (sizes.get? (Nat.log 1024 b)).isSome = true) ∧
    (1024 ^ 4 ≤ b →
      sizes.get? (Nat.log 1024 b) = none ∧
      formatFileSize b =
        formatScaled b (1024 ^ Nat.log 1024 b) ++ " " ++ "undefined") := by
  have hne : b ≠ 0 := Nat.pos_iff_ne_zero.mp hb
  refine ⟨⟨fun h => log1024_le_three hb h, fun h => ?_⟩, fun h => ?_, fun h => ?_⟩
  · exact (Nat.lt_pow_iff_log_lt (by norm_num) hne).mpr (Nat.lt_succ_iff.mpr h)
  · have h3 := log1024_le_three hb h
    have : Nat.log 1024 b < sizes.length := by
      simp only [sizes, List.length]
      omega
    simp [List.get?_eq_getElem?, List.getElem?_eq_getElem this]
  · have h4 : 4 ≤ Nat.log 1024 b :=
      (Nat.pow_le_iff_le_log (by norm_num) hne).mp h
    have hnone : sizes.get? (Nat.log 1024 b) = none := by
      apply List.get?_eq_none.mpr
      simp only [sizes, List.length]
      omega
    refine ⟨hnone, ?_⟩
    have hgd : sizes.getD (Nat.log 1024 b) "undefined" = "undefined" := by
      rw [List.getD, hnone]
      rfl
    simp only [formatFileSize, if_neg hne, hgd]

/-- C10 witness at one tebibyte: the index escapes the table, the lookup is
`none`, and the rendered unit is `"undefined"`. -/
theorem formatFileSize_unit_bounds_witness :
    sizes.get? (Nat.log 1024 (1024 ^ 4)) = none ∧
    formatFileSize (1024 ^ 4) =
      formatScaled (1024 ^ 4) (1024 ^ Nat.log 1024 (1024 ^ 4)) ++ " " ++ "undefined" :=
  (formatFileSize_unit_bounds (1024 ^ 4) (by norm_num)).2.2 (by norm_num)

/-! ### C3 — job id uniqueness -/

theorem base36Char_bounded_inj :
    ∀ a, a < 36 → ∀ b, b < 36 → base36Char a = base36Char b → a = b := by decide

theorem base36Char_inj {a b : Nat} (ha : a < 36) (hb : b < 36)
    (h : base36Char a = base36Char b) : a = b :=
  base36Char_bounded_inj a ha b hb h

theorem map_base36_inj : ∀ (d e : List Nat),
    (∀ x ∈ d, x < 36) → (∀ x ∈ e, x < 36) →
    d.map base36Char = e.map base36Char → d = e := by
  intro d
  induction d with
  | nil =>
    intro e _ _ h
    cases e with
    | nil => rfl
    | cons b bs => simp at h
  | cons a as ih =>
    intro e hd he h
    cases e with
    | nil => simp at h
    | cons b bs =>
      simp only [List.map_cons, List.cons.injEq] at h
      have ha : a < 36 := hd a (List.mem_cons_self a as)
      have hb : b < 36 := he b (List.mem_cons_self b bs)
      rw [base36Char_inj ha hb h.1,
        ih bs (fun x hx => hd x (List.mem_cons_of_mem a hx))
          (fun x hx => he x (List.mem_cons_of_mem b hx)) h.2]

theorem randomIdString_inj {d e : List Nat}
    (hd : ∀ x ∈ d, x < 36) (he : ∀ x ∈ e, x < 36)
    (h : randomIdString d = randomIdString e) : d.take 9 = e.take 9 := by
  have hl : (d.take 9).map base36Char = (e.take 9).map base36Char := by
    have := congrArg String.toList h
    simpa [randomIdString, List.asString] using this
  exact map_base36_inj (d.take 9) (e.take 9)
    (fun x hx => hd x (List.take_subset 9 d hx))
    (fun x hx => he x (List.take_subset 9 e hx)) hl

theorem mem_makeJobs_ids (rand : Nat → List Nat) :
    ∀ (files : List SourceFile) (k : Nat) (s : String),
      s ∈ (makeJobs rand k files).map ConvertedFile.id →
      ∃ j, j < files.length ∧ s = randomIdString (rand (k + j)) := by
  intro files
  induction files with
  | nil => intro k s h; cases h
  | cons f fs ih =>
    intro k s h
    rcases (List.mem_cons).mp h with h | h
    · exact ⟨0, by simp, by simpa [mkJob] using h⟩
    · obtain ⟨j, hj, hs⟩ := ih (k + 1) s h
      exact ⟨j + 1, by simpa using hj, by rw [hs]; ring_nf⟩

theorem makeJobs_ids_nodup (rand : Nat → List Nat) :
    ∀ (files : List SourceFile) (k : Nat),
      (∀ i, k ≤ i → i < k + files.length → ∀ d ∈ rand i, d < 36) →
      (∀ i j, k ≤ i → i < k + files.length → k ≤ j → j < k + files.length →
        i ≠ j → (rand i).take 9 ≠ (rand j).take 9) →
      ((makeJobs rand k files).map ConvertedFile.id).Nodup := by
  intro files
  induction files with
  | nil => intro k _ _; simp [makeJobs]
  | cons f fs ih =>
    intro k hdig hdist
    simp only [makeJobs, List.map_cons, List.nodup_cons]
    constructor
    · intro hmem
      obtain ⟨j, hj, hs⟩ := mem_makeJobs_ids rand fs (k + 1) _ hmem
      have heq : (rand k).take 9 = (rand (k + 1 + j)).take 9 := by
        apply randomIdString_inj
        · exact hdig k (le_refl k) (by simp)
        · exact hdig (k + 1 + j) (by omega) (by simp; omega)
        · simpa [mkJob] using hs
      exact hdist k (k + 1 + j) (le_refl k) (by simp)
        (by omega) (by simp; omega) (by omega) heq
    · exact ih (k + 1) (fun i h1 h2 => hdig i (by omega) (by simpa using by omega))
        (fun i j h1 h2 h3 h4 => hdist i j (by omega) (by simpa using by omega)
          (by omega) (by simpa using by omega))

/-- C3 counterexample: `Math.random` is not guaranteed to produce distinct
values, and the code derives ids from it with no uniqueness check — a run in
which both draws of a two-file batch have the same fraction digits creates two
jobs with the same id `"0"`. -/
theorem jobIds_collision :
    ((handleFilesSelected (fun _ => [0]) [fileA, fileB] []).map ConvertedFile.id)
      = ["0", "0"] ∧
    ¬ ((handleFilesSelected (fun _ => [0]) [fileA, fileB] []).map
        ConvertedFile.id).Nodup := by
  exact ⟨by decide, by decide⟩

/-- C3 amended: a job's id is a pure function of its `Math.random` draw (the
first nine base-36 fraction digits), so ids of a batch are pairwise distinct
whenever the truncated draws are pairwise distinct — uniqueness holds only as
a property of the random values, it is not enforced by the code. -/
theorem jobIds_nodup_of_distinct_draws (rand : Nat → List Nat)
    (selected : List SourceFile) (prev : List ConvertedFile)
    (hdig : ∀ i, i < (selected.filter (fun f => isImageType f.type)).length →
      ∀ d ∈ rand i, d < 36)
    (hdist : ∀ i j, i < (selected.filter (fun f => isImageType f.type)).length →
      j < (selected.filter (fun f => isImageType f.type)).length →
      i ≠ j → (rand i).take 9 ≠ (rand j).take 9) :
    ((makeJobs rand 0 (selected.filter (fun f => isImageType f.type))).map
      ConvertedFile.id).Nodup ∧
    handleFilesSelected rand selected prev =
      prev ++ makeJobs rand 0 (selected.filter (fun f => isImageType f.type)) := by
  constructor
  · apply makeJobs_ids_nodup rand _ 0
    · intro i _ h2
      exact hdig i (by omega)
    · intro i j _ h2 _ h4 hne
      exact hdist i j (by omega) (by omega) hne
  · rw [handleFilesSelected]
    by_cases h : (selected.filter (fun f => isImageType f.type)).length = 0
    · rw [if_pos h, List.eq_nil_of_length_eq_zero h]
      simp [makeJobs]
    · rw [if_neg h]

/-- C3 amended witness: two distinct draws (`[0]` and `[1]`) give the two-PNG
batch distinct ids. -/
theorem jobIds_nodup_of_distinct_draws_witness :
    ((makeJobs rndSeq 0 ([fileA, fileB].filter (fun f => isImageType f.type))).map
      ConvertedFile.id).Nodup ∧
    handleFilesSelected rndSeq [fileA, fileB] [] =
      [] ++ makeJobs rndSeq 0 ([fileA, fileB].filter (fun f => isImageType f.type)) :=
  jobIds_nodup_of_distinct_draws rndSeq [fileA, fileB] []
    (fun i _ d hd => by
      have : d = i % 36 := by simpa [rndSeq] using hd
      omega)
    (fun i j hi hj hne => by
      have hi2 : i < 2 := by simpa using hi
      have hj2 : j < 2 := by simpa using hj
      simp only [rndSeq, List.take, ne_eq, List.cons.injEq, and_true]
      omega)

/-! ### C1 — batch scheduling -/

theorem indexOf_range : ∀ (n k : Nat), k < n → (List.range n).indexOf k = k := by
  intro n
  induction n with
  | zero => intro k h; omega
  | succ m ih =>
    intro k h
    rw [List.range_succ]
    by_cases hk : k < m
    · rw [List.indexOf_append_of_mem (List.mem_range.mpr hk)]
      exact ih k hk
    · have hkm : k = m := by omega
      rw [hkm, List.indexOf_append_of_not_mem (by simp), List.length_range]
      simp

theorem indexOf_map_created : ∀ (l : List Nat) (k : Nat),
    (l.map JobEvent.created).indexOf (JobEvent.created k) = l.indexOf k := by
  intro l k
  induction l with
  | nil => rfl
  | cons a as ih =>
    by_cases hak : a = k
    · rw [hak]
      simp
    · rw [List.map_cons,
        List.indexOf_cons_ne _ (fun he : JobEvent.created a = JobEvent.created k =>
          hak (JobEvent.created.inj he)),
        List.indexOf_cons_ne _ hak, ih]

theorem created_not_mem_convertLoop (k : Nat) :
    ∀ (l : List Nat), JobEvent.created k ∉ convertLoop l := by
  intro l
  induction l with
  | nil => simp [convertLoop]
  | cons a as ih => simp [convertLoop, ih]

theorem indexOf_convertLoop_start : ∀ (l : List Nat) (k : Nat), k ∈ l →
    (convertLoop l).indexOf (JobEvent.convertStart k) = 2 * l.indexOf k := by
  intro l
  induction l with
  | nil => intro k h; cases h
  | cons a as ih =>
    intro k h
    by_cases hak : a = k
    · rw [hak]
      simp [convertLoop]
    · have hk : k ∈ as := by
        rcases (List.mem_cons).mp h with h | h
        · exact absurd h.symm hak
        · exact h
      rw [convertLoop,
        List.indexOf_cons_ne _ (fun he : JobEvent.convertStart a = _ =>
          hak (JobEvent.convertStart.inj he)),
        List.indexOf_cons_ne _ (fun he : JobEvent.completionApplied a = _ =>
          JobEvent.noConfusion he),
        ih k hk, List.indexOf_cons_ne _ hak]
      omega

theorem indexOf_convertLoop_applied : ∀ (l : List Nat) (k : Nat), k ∈ l →
    (convertLoop l).indexOf (JobEvent.completionApplied k) = 2 * l.indexOf k + 1 := by
  intro l
  induction l with
  | nil => intro k h; cases h
  | cons a as ih =>
    intro k h
    by_cases hak : a = k
    · rw [hak]
      simp [convertLoop]
    · have hk : k ∈ as := by
        rcases (List.mem_cons).mp h with h | h
        · exact absurd h.symm hak
        · exact h
      rw [convertLoop,
        List.indexOf_cons_ne _ (fun he : JobEvent.convertStart a = _ =>
          JobEvent.noConfusion he),
        List.indexOf_cons_ne _ (fun he : JobEvent.completionApplied a = _ =>
          hak (JobEvent.completionApplied.inj he)),
        ih k hk, List.indexOf_cons_ne _ hak]
      omega

theorem eventPos_created {n k : Nat} (h : k < n) :
    eventPos n (JobEvent.created k) = k := by
  rw [eventPos, batchTrace,
    List.indexOf_append_of_mem (List.mem_map_of_mem _ (List.mem_range.mpr h)),
    indexOf_map_created, indexOf_range n k h]

theorem eventPos_start {n k : Nat} (h : k < n) :
    eventPos n (JobEvent.convertStart k) = n + 2 * k := by
  rw [eventPos, batchTrace, List.indexOf_append_of_not_mem (by simp),
    List.length_map, List.length_range,
    indexOf_convertLoop_start _ k (List.mem_range.mpr h), indexOf_range n k h]

theorem eventPos_applied {n k : Nat} (h : k < n) :
    eventPos n (JobEvent.completionApplied k) = n + 2 * k + 1 := by
  rw [eventPos, batchTrace, List.indexOf_append_of_not_mem (by simp),
    List.length_map, List.length_range,
    indexOf_convertLoop_applied _ k (List.mem_range.mpr h), indexOf_range n k h]
  omega

/-- C1 counterexample: already for a batch of two accepted files the claimed
unconstrained concurrency fails on the code's trace — job 1's conversion does
not start before job 0's completion is applied, because the `for`/`await` loop
awaits each conversion before starting the next. -/
theorem batch_not_unconstrained : ¬ claimedUnconstrainedStart 2 := by decide

/-- C1 amended: a batch of `n` accepted files creates its `n` jobs
synchronously in input order, with every creation preceding every conversion
start — but the conversions then run sequentially, not concurrently: a later
job's conversion starts only after every earlier job's completion has been
applied, and completions are applied in input order. -/
theorem batch_sequential (n i j : Nat) (hij : i < j) (hj : j < n) :
    eventPos n (JobEvent.created i) < eventPos n (JobEvent.created j) ∧
    eventPos n (JobEvent.created j) < eventPos n (JobEvent.convertStart i) ∧
    eventPos n (JobEvent.completionApplied i) < eventPos n (JobEvent.convertStart j) ∧
    eventPos n (JobEvent.completionApplied i) < eventPos n (JobEvent.completionApplied j) := by
  have hi : i < n := lt_trans hij hj
  rw [eventPos_created hi, eventPos_created hj, eventPos_start hi, eventPos_start hj,
    eventPos_applied hi, eventPos_applied hj]
  omega

/-- C1 amended witness for a batch of two: creation order, creation before any
start, and job 0's completion applied before job 1's conversion starts. -/
theorem batch_sequential_witness :
    eventPos 2 (JobEvent.created 0) < eventPos 2 (JobEvent.created 1) ∧
    eventPos 2 (JobEvent.created 1) < eventPos 2 (JobEvent.convertStart 0) ∧
    eventPos 2 (JobEvent.completionApplied 0) < eventPos 2 (JobEvent.convertStart 1) ∧
    eventPos 2 (JobEvent.completionApplied 0) < eventPos 2 (JobEvent.completionApplied 1) :=
  batch_sequential 2 0 1 (by decide) (by decide)

/-! ### C2 — output-handle release discipline -/

/-- C2: the effect cleanup `useEffect(() => () => files.forEach(revoke),
[files])` does not release each handle exactly once.  In the lifetime
`[] → reg1 → reg2 → reg3 → unmount` — one file converted to handle
`"blob:a"`, a second file then added, no removal and no Clean All — the
cleanup fires at the `reg2 → reg3` dependency change and again at unmount, so
`"blob:a"` is revoked twice while its job still sits in the final registry
(its download link is dead from the first revocation on). -/
theorem effect_cleanup_double_release :
    List.count "blob:a" (effectReleases [[], reg1, reg2, reg3]) = 2 ∧
    "blob:a" ∈ urlsOf reg3 ∧
    removeReleases reg3 "0" = ["blob:a"] := by
  exact ⟨by decide, by decide, by decide⟩

end Webp
